import Mathlib

/-!
Shallow embedding of the go-git plumbing package (blob/tree object codec,
content-addressed store, tree builder classification) and of the helper
functions in cmd/mygit/main.go.

Bytes are modelled as `List Nat` (one Nat per byte).  The zlib compressor
and the sha1 hash are external library code, not part of this repository;
following the spec they are "reversible compression" and "a cryptographic
hash", so every definition that uses them takes them as explicit function
parameters.  OS errors, file permissions and integer overflow of Go's
`int` are not modelled.
-/

namespace GoGit

/-- Bytes of a Lean string literal, one Nat per character (all our literals
are ASCII, matching the Go source's byte strings). -/
def strBytes (s : String) : List Nat :=
  s.data.map Char.toNat

/-- The `blob` kind token (`ObjectType` constant `Blob` in the source). -/
def blobKind : List Nat := strBytes "blob"

/-- The `tree` kind token (`ObjectType` constant `Tree` in the source). -/
def treeKind : List Nat := strBytes "tree"

/-- `FileType` constant `Dir = "40000"` of the plumbing package. -/
def dirMode : List Nat := strBytes "40000"

/-- `FileType` constant `Symlink = "120000"` of the plumbing package. -/
def symlinkMode : List Nat := strBytes "120000"

/-- `FileType` constant `Regular = "100644"` of the plumbing package. -/
def regularMode : List Nat := strBytes "100644"

/-- `FileType` constant `Executable = "100755"` of the plumbing package. -/
def executableMode : List Nat := strBytes "100755"

/-- Big-endian decimal digit values of `n` (empty for `n = 0`); fuel-based
so that it is structurally recursive. -/
def natDigitsBE : Nat → Nat → List Nat
  | 0, _ => []
  | fuel + 1, n => if n = 0 then [] else natDigitsBE fuel (n / 10) ++ [n % 10]

/-- ASCII decimal rendering of a natural number, as produced by Go's
`fmt.Sprintf("%d", n)` for non-negative `n`. -/
def decimalBytes (n : Nat) : List Nat :=
  if n = 0 then [48] else (natDigitsBE (n + 1) n).map (· + 48)

/-- Accumulating digit parser: consumes ASCII digits, failing on any
non-digit byte. -/
def parseDigitsAcc : Nat → List Nat → Option Nat
  | acc, [] => some acc
  | acc, b :: rest =>
    if 48 ≤ b ∧ b ≤ 57 then parseDigitsAcc (acc * 10 + (b - 48)) rest else none

/-- Parse a non-empty all-digit byte string as a natural number. -/
def parseDecimal (l : List Nat) : Option Nat :=
  if l = [] then none else parseDigitsAcc 0 l

/-- Model of Go's `strconv.Atoi`: an optional single sign followed by one
or more ASCII digits.  `none` models a non-nil error.  Overflow of Go's
64-bit `int` is not modelled (sizes are mathematical integers here). -/
def goAtoi : List Nat → Option Int
  | [] => none
  | c :: rest =>
    if c = 43 then (parseDecimal rest).map (fun n => (n : Int))
    else if c = 45 then (parseDecimal rest).map (fun n => -(n : Int))
    else (parseDecimal (c :: rest)).map (fun n => (n : Int))

/-- Model of Go's `bytes.Cut(b, sep)` for a single-byte separator `c`
(the source only cuts on `" "` and `"\x00"`): `some (before, after)` when
`c` occurs, `none` when it does not (Go's `ok = false`). -/
def goCutByte : List Nat → Nat → Option (List Nat × List Nat)
  | [], _ => none
  | x :: xs, c =>
    if x = c then some ([], xs)
    else (goCutByte xs c).map (fun p => (x :: p.1, p.2))

theorem goCutByte_snd_lt {l : List Nat} {c : Nat} {p : List Nat × List Nat}
    (h : goCutByte l c = some p) : p.2.length < l.length := by
  induction l generalizing p with
  | nil => simp [goCutByte] at h
  | cons x xs ih =>
    rw [goCutByte] at h
    split at h
    · injection h with h
      subst h
      simp
    · rw [Option.map_eq_some'] at h
      obtain ⟨q, hq, hqp⟩ := h
      subst hqp
      simpa using Nat.lt_succ_of_lt (ih hq)

/-- Model of Go's `bytes.Split(b, sep)` for a single-byte separator. -/
def goSplitByte (l : List Nat) (c : Nat) : List (List Nat) :=
  match h : goCutByte l c with
  | none => [l]
  | some p => p.1 :: goSplitByte p.2 c
termination_by l.length
decreasing_by exact goCutByte_snd_lt h

theorem goCutByte_not_mem {l : List Nat} {c : Nat} (h : c ∉ l) :
    goCutByte l c = none := by
  induction l with
  | nil => rfl
  | cons x xs ih =>
    simp only [List.mem_cons, not_or] at h
    simp [goCutByte, Ne.symm h.1, ih h.2]

theorem goCutByte_append {l r : List Nat} {c : Nat} (h : c ∉ l) :
    goCutByte (l ++ c :: r) c = some (l, r) := by
  induction l with
  | nil => simp [goCutByte]
  | cons x xs ih =>
    simp only [List.mem_cons, not_or] at h
    simp [goCutByte, Ne.symm h.1, ih h.2]

theorem parseDigitsAcc_append (acc : Nat) (l₁ l₂ : List Nat) :
    parseDigitsAcc acc (l₁ ++ l₂) =
      match parseDigitsAcc acc l₁ with
      | some a => parseDigitsAcc a l₂
      | none => none := by
  induction l₁ generalizing acc with
  | nil => simp [parseDigitsAcc]
  | cons b rest ih =>
    by_cases hb : 48 ≤ b ∧ b ≤ 57
    · simp [parseDigitsAcc, hb, ih]
    · simp [parseDigitsAcc, hb]

theorem natDigitsBE_mem_lt {fuel n d : Nat} (h : d ∈ natDigitsBE fuel n) :
    d < 10 := by
  induction fuel generalizing n with
  | zero => simp [natDigitsBE] at h
  | succ f ih =>
    by_cases hn : n = 0
    · simp [natDigitsBE, hn] at h
    · simp only [natDigitsBE, hn, if_false, List.mem_append, List.mem_singleton] at h
      rcases h with h | h
      · exact ih h
      · subst h
        exact Nat.mod_lt _ (by norm_num)

theorem parseDigitsAcc_natDigitsBE {fuel n : Nat} (hfuel : n < fuel) (acc : Nat) :
    ∃ k, parseDigitsAcc acc ((natDigitsBE fuel n).map (· + 48)) =
      some (acc * 10 ^ k + n) := by
  induction fuel generalizing n acc with
  | zero => omega
  | succ f ih =>
    by_cases hn : n = 0
    · refine ⟨0, ?_⟩
      simp [natDigitsBE, hn, parseDigitsAcc]
    · have hdiv : n / 10 < n := Nat.div_lt_self (Nat.pos_of_ne_zero hn) (by norm_num)
      have hdf : n / 10 < f := by omega
      obtain ⟨k, hk⟩ := ih hdf acc
      refine ⟨k + 1, ?_⟩
      have hmod : n % 10 < 10 := Nat.mod_lt _ (by norm_num)
      simp only [natDigitsBE, hn, if_false, List.map_append, List.map_cons, List.map_nil]
      rw [parseDigitsAcc_append, hk]
      have harith : 48 ≤ n % 10 + 48 ∧ n % 10 + 48 ≤ 57 := by omega
      have hstep : parseDigitsAcc (acc * 10 ^ k + n / 10) [n % 10 + 48]
          = some ((acc * 10 ^ k + n / 10) * 10 + n % 10) := by
        have h1 : n % 10 + 48 - 48 = n % 10 := by omega
        simp [parseDigitsAcc, harith, h1]
      dsimp only
      rw [hstep]
      have hdm : 10 * (n / 10) + n % 10 = n := Nat.div_add_mod n 10
      congr 1
      calc (acc * 10 ^ k + n / 10) * 10 + n % 10
          = acc * (10 ^ k * 10) + (10 * (n / 10) + n % 10) := by ring
        _ = acc * 10 ^ (k + 1) + n := by rw [hdm, pow_succ]

theorem decimalBytes_mem {n b : Nat} (h : b ∈ decimalBytes n) :
    48 ≤ b ∧ b ≤ 57 := by
  by_cases hn : n = 0
  · simp [decimalBytes, hn] at h
    omega
  · simp only [decimalBytes, hn, if_false, List.mem_map] at h
    obtain ⟨d, hd, hdb⟩ := h
    have := natDigitsBE_mem_lt hd
    omega

theorem decimalBytes_ne_nil (n : Nat) : decimalBytes n ≠ [] := by
  by_cases hn : n = 0
  · simp [decimalBytes, hn]
  · have hpos : 0 < n := Nat.pos_of_ne_zero hn
    simp only [decimalBytes, hn, if_false]
    intro hcontra
    have : natDigitsBE (n + 1) n = [] := by
      cases h : natDigitsBE (n + 1) n with
      | nil => rfl
      | cons a l => simp [h] at hcontra
    simp [natDigitsBE, hn] at this

theorem parseDecimal_decimalBytes (n : Nat) :
    parseDecimal (decimalBytes n) = some n := by
  by_cases hn : n = 0
  · simp [parseDecimal, decimalBytes, hn, parseDigitsAcc]
  · rw [parseDecimal, if_neg (decimalBytes_ne_nil n)]
    have hbytes : decimalBytes n = (natDigitsBE (n + 1) n).map (· + 48) := by
      simp [decimalBytes, hn]
    rw [hbytes]
    obtain ⟨k, hk⟩ := parseDigitsAcc_natDigitsBE (Nat.lt_succ_self n) 0
    rw [hk]
    simp

theorem goAtoi_decimalBytes (n : Nat) :
    goAtoi (decimalBytes n) = some (n : Int) := by
  cases h : decimalBytes n with
  | nil => exact absurd h (decimalBytes_ne_nil n)
  | cons c rest =>
    have hc : 48 ≤ c ∧ c ≤ 57 := decimalBytes_mem (by rw [h]; exact List.mem_cons_self c rest)
    have h43 : ¬c = 43 := by omega
    have h45 : ¬c = 45 := by omega
    simp only [goAtoi]
    rw [if_neg h43, if_neg h45, ← h, parseDecimal_decimalBytes]
    rfl

/-- `BlobObject` of the plumbing package.  The `Mode` field exists in the
Go struct but is never set by any constructor in the source; we keep it
for structural fidelity.  `Size` is Go's `int`, kept as `Nat` because every
constructor in the source stores a byte-slice length in it. -/
structure BlobObjectM where
  Header : List Nat
  Mode : List Nat
  Size : Nat
  Content : List Nat
  Sha : List Nat
deriving DecidableEq, Repr

/-- `BlobObject.serializeDecompressed`:
`fmt.Sprintf("%s %d\x00", b.Header, b.Size)` followed by `b.Content`. -/
def serializeDecompressedBlob (b : BlobObjectM) : List Nat :=
  b.Header ++ [32] ++ decimalBytes b.Size ++ [0] ++ b.Content

/-- Outcome of `deserializeDecompressedBlobObject`, whose Go signature is
`(*BlobObject, error)`:
* `ok b` — `(&b, nil)`;
* `errInvalidBlobObject` — `(nil, ErrInvalidBlobObject)`;
* `errAtoi` — `(nil, err)` with the non-nil `strconv.Atoi` error;
* `noObjNoErr` — `(nil, nil)`: the branch `return nil, err` taken while
  `err == nil` (kind token not `blob`, or declared size ≠ payload length). -/
inductive BlobResult where
  | ok (b : BlobObjectM)
  | errInvalidBlobObject
  | errAtoi
  | noObjNoErr
deriving DecidableEq, Repr

/-- `deserializeDecompressedBlobObject` of the plumbing package.  `sh` is
the sha1 hash function (external library code, passed as a parameter). -/
def deserializeDecompressedBlobObject (sh : List Nat → List Nat) (b : List Nat) :
    BlobResult :=
  match goCutByte b 32 with
  | none => .errInvalidBlobObject
  | some (first, rest) =>
    match goCutByte rest 0 with
    | none => .errInvalidBlobObject
    | some (sz, content) =>
      match goAtoi sz with
      | none => .errAtoi
      | some size =>
        if first ≠ blobKind ∨ size ≠ (content.length : Int) then .noObjNoErr
        else .ok { Header := first, Mode := [], Size := content.length,
                   Content := content, Sha := sh b }

/-- `TreeEntry` of the plumbing package.  The Go struct's `w FileWriter`
field (the live child writer) is modelled separately by pairing entries
with child objects in `ObjNode` below. -/
structure TreeEntryM where
  Header : List Nat
  Mode : List Nat
  Name : List Nat
  Sha : List Nat
deriving DecidableEq, Repr

/-- `TreeObject` of the plumbing package. -/
structure TreeObjectM where
  Header : List Nat
  Entries : List TreeEntryM
  Size : Nat
  Sha : List Nat
deriving DecidableEq, Repr

/-- One entry's bytes in `TreeObject.serializeDecompressed`:
`fmt.Sprintf("%s %s\x00", entry.Mode, entry.Name)` followed by `entry.Sha`. -/
def serializeTreeEntry (e : TreeEntryM) : List Nat :=
  e.Mode ++ [32] ++ e.Name ++ [0] ++ e.Sha

/-- The concatenated entry payload built by `TreeObject.serializeDecompressed`. -/
def treePayload (es : List TreeEntryM) : List Nat :=
  (es.map serializeTreeEntry).flatten

/-- `TreeObject.serializeDecompressed`: the entry payload wrapped as
`fmt.Sprintf("%s %d\x00", t.Header, content.Len())` followed by the payload. -/
def serializeTree (t : TreeObjectM) : List Nat :=
  t.Header ++ [32] ++ decimalBytes (treePayload t.Entries).length ++ [0] ++
    treePayload t.Entries

/-- Outcome of the entry-parsing loop (`for ok { ... }`) in
`deserializeDecompressedTreeObject`:
* `ok es` — the loop terminated normally, producing the entries;
* `err` — a `bytes.Cut` failed, `return nil, ErrInvalidTreeObject`;
* `outOfRange` — the loop reached `entry.Sha = content[:20]` with fewer
  than 20 bytes left in `content`: a Go slice-bounds violation (runtime
  panic when the slice's capacity equals its length; with slack capacity
  Go would instead read bytes past the logical payload) — in no case an
  error return. -/
inductive EntriesResult where
  | ok (es : List TreeEntryM)
  | err
  | outOfRange
deriving DecidableEq, Repr

/-- The `for ok` loop of `deserializeDecompressedTreeObject`: cut the next
mode at a space, derive the entry kind from the mode, cut the name at a
NUL, then take the 20 digest bytes; a remainder of exactly 20 bytes is the
final entry. -/
def parseEntries (content : List Nat) : EntriesResult :=
  match h1 : goCutByte content 32 with
  | none => .err
  | some (modeB, r1) =>
    match h2 : goCutByte r1 0 with
    | none => .err
    | some (nameB, r2) =>
      let hdr := if modeB = dirMode then treeKind else blobKind
      if r2.length = 20 then
        .ok [{ Header := hdr, Mode := modeB, Name := nameB, Sha := r2 }]
      else if r2.length < 20 then .outOfRange
      else
        match parseEntries (r2.drop 20) with
        | .ok es =>
          .ok ({ Header := hdr, Mode := modeB, Name := nameB, Sha := r2.take 20 } :: es)
        | r => r
termination_by content.length
decreasing_by
  have hl1 : r1.length < content.length := goCutByte_snd_lt h1
  have hl2 : r2.length < r1.length := goCutByte_snd_lt h2
  have : (r2.drop 20).length ≤ r2.length := by simp
  omega

/-- Outcome of `deserializeDecompressedTreeObject` (`(*TreeObject, error)`
in Go): a tree, the `ErrInvalidTreeObject` error, or the slice-bounds
violation described at `EntriesResult.outOfRange`. -/
inductive TreeResult where
  | ok (t : TreeObjectM)
  | errInvalidTreeObject
  | outOfRange
deriving DecidableEq, Repr

/-- `deserializeDecompressedTreeObject` of the plumbing package: cut the
header at the first NUL, split it at spaces into exactly two tokens,
check the kind is `tree` and the declared size equals the payload length,
then run the entry loop.  `sh` is the sha1 function parameter. -/
def deserializeDecompressedTreeObject (sh : List Nat → List Nat) (b : List Nat) :
    TreeResult :=
  match goCutByte b 0 with
  | none => .errInvalidTreeObject
  | some (first, content) =>
    match goSplitByte first 32 with
    | [m0, m1] =>
      match goAtoi m1 with
      | none => .errInvalidTreeObject
      | some size =>
        if m0 ≠ treeKind ∨ size ≠ (content.length : Int) then .errInvalidTreeObject
        else
          match parseEntries content with
          | .ok es => .ok { Header := treeKind, Entries := es,
                            Size := content.length, Sha := sh b }
          | .err => .errInvalidTreeObject
          | .outOfRange => .outOfRange
    | _ => .errInvalidTreeObject

/-- `GitObjectMetadata` of the plumbing package (`Size` is Go's `int`). -/
structure GitObjectMetadataM where
  Header : List Nat
  Size : Int
deriving DecidableEq, Repr

/-- Outcome of the header-parsing part of `GetGitObjectMetadata`. -/
inductive MetaResult where
  | ok (m : GitObjectMetadataM)
  | errInvalidGitObject
deriving DecidableEq, Repr

/-- The parsing part of `GetGitObjectMetadata`, applied to the decompressed
object bytes (file reading and zlib decompression, which only add their own
error paths before this code runs, are external): cut at the first NUL,
split the header at spaces into exactly two tokens, require the kind to be
`tree` or `blob` and the size token to parse to a non-negative value. -/
def getGitObjectMetadata (b : List Nat) : MetaResult :=
  match goCutByte b 0 with
  | none => .errInvalidGitObject
  | some (h, _) =>
    match goSplitByte h 32 with
    | [p0, p1] =>
      if p0 ≠ treeKind ∧ p0 ≠ blobKind then .errInvalidGitObject
      else
        match goAtoi p1 with
        | none => .errInvalidGitObject
        | some size =>
          if size < 0 then .errInvalidGitObject
          else .ok { Header := p0, Size := size }
    | _ => .errInvalidGitObject

/-- A path inside `./.git/objects`: the fanout directory name and the file
name, both as hex-character bytes. -/
abbrev PathT := List Nat × List Nat

/-- The object store: bytes per path, `none` when no file exists.
Directories are not modelled; `os.MkdirAll` is create-if-absent and adds
no observable state beyond the files. -/
abbrev StoreM := PathT → Option (List Nat)

/-- Model of `os.WriteFile`: unconditional create-or-truncate write.  The
source never checks for an existing file before writing.  Permission bits
and OS errors are not modelled. -/
def writeFileM (st : StoreM) (p : PathT) (b : List Nat) : StoreM :=
  fun q => if q = p then some b else st q

/-- Lowercase hex digit byte, as produced by Go's `%x`. -/
def hexDigitByte (n : Nat) : Nat :=
  if n < 10 then 48 + n else 87 + n

/-- Two hex-character bytes of one byte value. -/
def hexByte (b : Nat) : List Nat :=
  [hexDigitByte (b / 16), hexDigitByte (b % 16)]

/-- Hex rendering of a byte string (Go's `%x` of a `[]byte`): two digits
per byte, zero-padded. -/
def hexBytes (l : List Nat) : List Nat :=
  (l.map hexByte).flatten

/-- Go's `%x` of a single integer byte value (`0 ≤ b < 256`): minimal
hex digits with no zero padding — one character for values below `0x10`. -/
def intHexByte (b : Nat) : List Nat :=
  if b < 16 then [hexDigitByte b] else [hexDigitByte (b / 16), hexDigitByte (b % 16)]

/-- The store path the plumbing writers use:
`fmt.Sprintf("./.git/objects/%x/%x", dir, file)` with
`dir, file := Sha[0], Sha[1:]` — `dir` is a single byte, so its `%x` has no
leading zero (one hex character when `Sha[0] < 0x10`). -/
def writerObjectPath (sha : List Nat) : PathT :=
  (intHexByte (sha.headD 0), hexBytes (sha.drop 1))

/-- The store path every reader uses
(`NewBlobObjectFromHash`, `NewTreeObjectFromHash`, `GetGitObjectMetadata`):
`./.git/objects/<hash[:2]>/<hash[2:]>` over the 40-character hex digest
string — the fanout directory always has two characters. -/
def readerObjectPath (sha : List Nat) : PathT :=
  ((hexBytes sha).take 2, (hexBytes sha).drop 2)

/-- `BlobObject.WriteToFile`: compress the serialized bytes and write them
at the writer's digest-derived path, unconditionally.  `compress` is the
zlib compressor (external library code, passed as a parameter). -/
def BlobObjectM.writeToFile (compress : List Nat → List Nat) (b : BlobObjectM)
    (st : StoreM) : StoreM :=
  writeFileM st (writerObjectPath b.Sha) (compress (serializeDecompressedBlob b))

/-- `HashBlobObject` of cmd/mygit/main.go: frame the bytes as
`"blob <len>\x00<content>"`, hash, and — when `write` is set — compress and
write at `./.git/objects/<hash[:2]>/<hash[2:]>`.  Returns the hex hash and
the updated store.  `sh` is sha1 and `compress` is zlib. -/
def HashBlobObject (sh compress : List Nat → List Nat) (b : List Nat)
    (write : Bool) (st : StoreM) : List Nat × StoreM :=
  let content := blobKind ++ [32] ++ decimalBytes b.length ++ [0] ++ b
  let hashHex := hexBytes (sh content)
  if write then
    (hashHex, writeFileM st (hashHex.take 2, hashHex.drop 2) (compress content))
  else (hashHex, st)

/-- Model of Go's `os.FileMode` as seen through the predicates the source
uses: the directory and symlink bits, the remaining file-type bits
(device, named pipe, socket, char device, irregular), and the permission
bits. -/
structure FileMode where
  isDirF : Bool
  isSymlinkF : Bool
  isDeviceF : Bool
  isNamedPipeF : Bool
  isSocketF : Bool
  isCharDeviceF : Bool
  isIrregularF : Bool
  perm : Nat
deriving DecidableEq, Repr

/-- Go's `FileMode.IsRegular`: no file-type bit is set. -/
def FileMode.isRegular (m : FileMode) : Bool :=
  !m.isDirF && !m.isSymlinkF && !m.isDeviceF && !m.isNamedPipeF &&
    !m.isSocketF && !m.isCharDeviceF && !m.isIrregularF

/-- `fileInfoToFileType` of the plumbing package: directory, else symlink,
else executable when any of the `0111` bits is set, else regular.  Total —
there is no error case in the source. -/
def fileInfoToFileType (m : FileMode) : List Nat :=
  if m.isDirF then dirMode
  else if m.isSymlinkF then symlinkMode
  else if m.perm &&& 0o111 ≠ 0 then executableMode
  else regularMode

/-- `FileType` constant `Dir = "040000"` of cmd/mygit/main.go (note the
leading zero, unlike the plumbing package's `"40000"`). -/
def dirModeMain : List Nat := strBytes "040000"

/-- `FileType` constant `Symlink = "120000"` of cmd/mygit/main.go. -/
def symlinkModeMain : List Nat := strBytes "120000"

/-- `FileType` constant `RegularFile = "100644"` of cmd/mygit/main.go. -/
def regularModeMain : List Nat := strBytes "100644"

/-- `FileType` constant `ExecutableFile = "100755"` of cmd/mygit/main.go. -/
def executableModeMain : List Nat := strBytes "100755"

/-- The entry classification switch of `WriteTree` in cmd/mygit/main.go:
directory, symlink, regular-and-executable, regular, and otherwise the
error `"Could not handle unknown file type."` (modelled as `none`). -/
def writeTreeClassify (m : FileMode) : Option (List Nat) :=
  if m.isDirF then some dirModeMain
  else if m.isSymlinkF then some symlinkModeMain
  else if m.isRegular && m.perm &&& 0o111 ≠ 0 then some executableModeMain
  else if m.isRegular then some regularModeMain
  else none

mutual
/-- An in-memory object graph as built by `NewTreeObjectFromFilePath`: a
tree object together with, per entry, the child object held in the entry's
`w FileWriter` field.  Two-sorted so that all recursion is structural. -/
inductive ObjNode where
  | blobN (b : BlobObjectM)
  | treeN (t : TreeObjectM) (cs : ObjList)
inductive ObjList where
  | nil
  | cons (c : ObjNode) (cs : ObjList)
end

/-- The digest of an object node (the `Sha` field of the Go struct). -/
def ObjNode.sha : ObjNode → List Nat
  | .blobN b => b.Sha
  | .treeN t _ => t.Sha

/-- The plain list of an `ObjList`. -/
def ObjList.toList : ObjList → List ObjNode
  | .nil => []
  | .cons c cs => c :: cs.toList

mutual
/-- `TreeObject.WriteToFile` (and, through the entries' writers,
`BlobObject.WriteToFile`): first every entry's `entry.w.WriteToFile()`, in
entry order, then the tree's own compressed bytes at its digest path. -/
def ObjNode.writeToFile (compress : List Nat → List Nat) :
    ObjNode → StoreM → StoreM
  | .blobN b, st => BlobObjectM.writeToFile compress b st
  | .treeN t cs, st =>
    writeFileM (ObjList.writeAll compress cs st) (writerObjectPath t.Sha)
      (compress (serializeTree t))
def ObjList.writeAll (compress : List Nat → List Nat) :
    ObjList → StoreM → StoreM
  | .nil, st => st
  | .cons c cs, st => ObjList.writeAll compress cs (ObjNode.writeToFile compress c st)
end

mutual
/-- All digests appearing in an object graph: the node's own and,
recursively, those of every subtree and blob beneath it. -/
def ObjNode.allShas : ObjNode → List (List Nat)
  | .blobN b => [b.Sha]
  | .treeN t cs => t.Sha :: ObjList.allShas cs
def ObjList.allShas : ObjList → List (List Nat)
  | .nil => []
  | .cons c cs => ObjNode.allShas c ++ ObjList.allShas cs
end

/-- The entry list references exactly the paired children's digests, in
order — the invariant `entry.Sha = subtree.Sha` / `entry.Sha = blob.Sha`
established by `NewTreeObjectFromFilePath`. -/
def entriesMatch : List TreeEntryM → ObjList → Bool
  | [], .nil => true
  | e :: es, .cons c cs => (e.Sha == ObjNode.sha c) && entriesMatch es cs
  | _, _ => false

mutual
/-- Well-formedness of a built object graph: every tree's entries match
its children, recursively. -/
def ObjNode.wfB : ObjNode → Bool
  | .blobN _ => true
  | .treeN t cs => entriesMatch t.Entries cs && ObjList.wfB cs
def ObjList.wfB : ObjList → Bool
  | .nil => true
  | .cons c cs => ObjNode.wfB c && ObjList.wfB cs
end

/-- The store with no object files. -/
def emptyStore : StoreM := fun _ => none

theorem writeFileM_isSome {st : StoreM} {p q : PathT} {b : List Nat}
    (h : (st q).isSome) : ((writeFileM st p b) q).isSome := by
  unfold writeFileM
  by_cases hq : q = p <;> simp [hq, h]

theorem writeFileM_self (st : StoreM) (p : PathT) (b : List Nat) :
    (writeFileM st p b) p = some b := by
  simp [writeFileM]

mutual
theorem ObjNode.write_mono (compress : List Nat → List Nat) (n : ObjNode)
    (st : StoreM) (q : PathT) (h : (st q).isSome) :
    ((n.writeToFile compress st) q).isSome := by
  cases n with
  | blobN b =>
    simp only [ObjNode.writeToFile, BlobObjectM.writeToFile]
    exact writeFileM_isSome h
  | treeN t cs =>
    simp only [ObjNode.writeToFile]
    exact writeFileM_isSome (ObjList.writeAll_mono compress cs st q h)
theorem ObjList.writeAll_mono (compress : List Nat → List Nat) (l : ObjList)
    (st : StoreM) (q : PathT) (h : (st q).isSome) :
    ((ObjList.writeAll compress l st) q).isSome := by
  cases l with
  | nil => exact h
  | cons c cs =>
    simp only [ObjList.writeAll]
    exact ObjList.writeAll_mono compress cs _ q (ObjNode.write_mono compress c st q h)
end

mutual
theorem ObjNode.writeToFile_allShas (compress : List Nat → List Nat) (n : ObjNode)
    (st : StoreM) (sha : List Nat) (h : sha ∈ n.allShas) :
    ((n.writeToFile compress st) (writerObjectPath sha)).isSome := by
  cases n with
  | blobN b =>
    simp only [ObjNode.allShas, List.mem_singleton] at h
    subst h
    simp [ObjNode.writeToFile, BlobObjectM.writeToFile, writeFileM]
  | treeN t cs =>
    simp only [ObjNode.allShas, List.mem_cons] at h
    rcases h with h | h
    · subst h
      simp [ObjNode.writeToFile, writeFileM]
    · simp only [ObjNode.writeToFile]
      exact writeFileM_isSome (ObjList.writeAll_allShas compress cs st sha h)
theorem ObjList.writeAll_allShas (compress : List Nat → List Nat) (l : ObjList)
    (st : StoreM) (sha : List Nat) (h : sha ∈ ObjList.allShas l) :
    ((ObjList.writeAll compress l st) (writerObjectPath sha)).isSome := by
  cases l with
  | nil => simp [ObjList.allShas] at h
  | cons c cs =>
    simp only [ObjList.allShas, List.mem_append] at h
    simp only [ObjList.writeAll]
    rcases h with h | h
    · exact ObjList.writeAll_mono compress cs _ _
        (ObjNode.writeToFile_allShas compress c st sha h)
    · exact ObjList.writeAll_allShas compress cs _ sha h
end

theorem ObjNode.sha_mem_allShas (n : ObjNode) : n.sha ∈ n.allShas := by
  cases n <;> simp [ObjNode.sha, ObjNode.allShas]

theorem sha_mem_allShas_of_mem_toList :
    ∀ {cs : ObjList} {c : ObjNode}, c ∈ cs.toList → c.sha ∈ ObjList.allShas cs
  | .nil, c, h => by simp [ObjList.toList] at h
  | .cons c0 rest, c, h => by
    simp only [ObjList.toList, List.mem_cons] at h
    simp only [ObjList.allShas, List.mem_append]
    rcases h with h | h
    · subst h
      exact Or.inl (ObjNode.sha_mem_allShas c)
    · exact Or.inr (sha_mem_allShas_of_mem_toList h)

theorem entriesMatch_exists {es : List TreeEntryM} {cs : ObjList}
    (h : entriesMatch es cs = true) {e : TreeEntryM} (he : e ∈ es) :
    ∃ c ∈ cs.toList, e.Sha = c.sha := by
  induction es generalizing cs with
  | nil => simp at he
  | cons e0 rest ih =>
    cases cs with
    | nil => simp [entriesMatch] at h
    | cons c cs2 =>
      simp only [entriesMatch, Bool.and_eq_true, beq_iff_eq] at h
      rcases List.mem_cons.mp he with he0 | herest
      · exact ⟨c, by simp [ObjList.toList], he0 ▸ h.1⟩
      · obtain ⟨c2, hc2, hsha⟩ := ih h.2 herest
        exact ⟨c2, by simp [ObjList.toList, hc2], hsha⟩

theorem goSplitByte_not_mem {l : List Nat} {c : Nat} (h : c ∉ l) :
    goSplitByte l c = [l] := by
  rw [goSplitByte.eq_def]
  split
  · rfl
  · rename_i p heq
    rw [goCutByte_not_mem h] at heq
    cases heq

theorem goSplitByte_two {k s : List Nat} {c : Nat} (hk : c ∉ k) (hs : c ∉ s) :
    goSplitByte (k ++ c :: s) c = [k, s] := by
  rw [goSplitByte.eq_def]
  split
  · rename_i heq
    rw [goCutByte_append hk] at heq
    cases heq
  · rename_i p heq
    rw [goCutByte_append hk] at heq
    injection heq with heq
    subst heq
    simp [goSplitByte_not_mem hs]

/-- A 20-byte example digest. -/
def shaA : List Nat := List.replicate 20 1

/-- A second 20-byte example digest. -/
def shaB : List Nat := List.replicate 20 2

/-- Example blob with content `"h"` and digest `shaA`. -/
def exBlob : BlobObjectM :=
  { Header := blobKind, Mode := [], Size := 1, Content := [104], Sha := shaA }

/-- Example tree entry naming `exBlob` as a regular file `"a"`. -/
def exEntry : TreeEntryM :=
  { Header := blobKind, Mode := regularMode, Name := [97], Sha := shaA }

/-- Example one-entry tree with digest `shaB`. -/
def exTree : TreeObjectM :=
  { Header := treeKind, Entries := [exEntry], Size := 29, Sha := shaB }

/-- The children paired with `exTree`'s entries: just `exBlob`. -/
def exChildren : ObjList := .cons (.blobN exBlob) .nil

/-- A FIFO's file mode: the named-pipe type bit set, permissions `0644`
(no execute bit). -/
def fifoInfo : FileMode :=
  { isDirF := false, isSymlinkF := false, isDeviceF := false,
    isNamedPipeF := true, isSocketF := false, isCharDeviceF := false,
    isIrregularF := false, perm := 0o644 }

/-- C1: the spec claims tree payload decoding fails with the TruncatedTree
error when fewer than 20 bytes remain where a child digest is expected, and
that decoding always returns a tree or an error value.  On the decompressed
stream `"tree 13\x00" ++ "40000 a\x00" ++ [1,2,3,4,5]` — a well-framed tree
whose payload ends 5 bytes into an expected 20-byte digest — the code
instead reaches `entry.Sha = content[:20]` with only 5 bytes left: a slice
bounds violation (runtime panic), not an error return.  The code contradicts
its own documented contract of returning `(nil, error)` on failure. -/
theorem treeDecode_truncated_digest_out_of_range :
    deserializeDecompressedTreeObject id
      (strBytes "tree 13" ++ [0] ++ strBytes "40000 a" ++ [0] ++ [1, 2, 3, 4, 5])
      = .outOfRange := by
  simp [deserializeDecompressedTreeObject, goSplitByte, goCutByte, goAtoi,
    parseDecimal, parseDigitsAcc, parseEntries, strBytes, treeKind, dirMode]

/-- C2: the spec claims blob decoding fails with the SizeMismatch error when
the declared size parses but differs from the actual payload length.  On the
decompressed stream `"blob 5\x00hi"` (declared 5, actual 2) the code executes
`return nil, err` with `err == nil` and so returns a nil object together with
a nil error — no error at all, contradicting the documented
`(*BlobObject, nil) on success, otherwise (nil, error)` contract. -/
theorem blobDecode_size_mismatch_nil_nil :
    deserializeDecompressedBlobObject id
      (strBytes "blob 5" ++ [0] ++ strBytes "hi") = .noObjNoErr := by
  decide

/-- C3: there are well-formed decompressed inputs on which
`deserializeDecompressedBlobObject` returns a nil object together with a nil
error: a stream whose kind token is `tree` (here the valid tree encoding
`"tree 0\x00"`), and a stream whose size token parses but differs from the
payload length (here `"blob 7\x00ab"`). -/
theorem blobDecode_returns_nil_object_nil_error :
    deserializeDecompressedBlobObject id (strBytes "tree 0" ++ [0]) = .noObjNoErr
    ∧ deserializeDecompressedBlobObject id
        (strBytes "blob 7" ++ [0] ++ strBytes "ab") = .noObjNoErr := by
  decide

/-- C4: for every byte sequence `p`, the blob encoding of `p` is
`"blob " ++ decimal(len p) ++ NUL ++ p`, and decoding it succeeds with
content exactly `p` and parsed size `len p` — in particular also when `p`
contains NUL or space bytes, since the decoder cuts at the first space and
the first NUL, both of which lie in the header. -/
theorem blobEncodeDecode_roundTrip (sh : List Nat → List Nat) (p sha0 : List Nat) :
    serializeDecompressedBlob
      { Header := blobKind, Mode := [], Size := p.length, Content := p, Sha := sha0 }
      = blobKind ++ [32] ++ decimalBytes p.length ++ [0] ++ p
    ∧ ∃ b, deserializeDecompressedBlobObject sh
          (blobKind ++ [32] ++ decimalBytes p.length ++ [0] ++ p) = .ok b
        ∧ b.Content = p ∧ b.Size = p.length := by
  constructor
  · rfl
  · have h32 : (32 : Nat) ∉ blobKind := by decide
    have h0 : (0 : Nat) ∉ decimalBytes p.length := fun hmem => by
      have := decimalBytes_mem hmem
      omega
    have hshape : blobKind ++ [32] ++ decimalBytes p.length ++ [0] ++ p
        = blobKind ++ 32 :: (decimalBytes p.length ++ 0 :: p) := by simp
    rw [hshape]
    refine ⟨{ Header := blobKind, Mode := [], Size := p.length, Content := p,
              Sha := sh (blobKind ++ 32 :: (decimalBytes p.length ++ 0 :: p)) },
            ?_, rfl, rfl⟩
    simp only [deserializeDecompressedBlobObject, goCutByte_append h32,
      goCutByte_append h0, goAtoi_decimalBytes]
    simp

/-- C5 counterexample: the claim says the store writes the object file at
the digest-derived path only if it is absent and never rewrites an existing
file.  Starting from a store that already holds the bytes `[99]` at
`exBlob`'s digest path, `BlobObject.WriteToFile` (which calls `os.WriteFile`
unconditionally, with no absence check) replaces them: the path held `[99]`
before and no longer does after. -/
theorem store_write_rewrites_existing_file :
    (writeFileM emptyStore (writerObjectPath shaA) [99]) (writerObjectPath shaA) = some [99]
    ∧ (BlobObjectM.writeToFile id exBlob
        (writeFileM emptyStore (writerObjectPath shaA) [99])) (writerObjectPath shaA)
       ≠ some [99] := by
  decide

/-- C5 amended: writing the same content twice produces the same digest both
times and leaves the store's final bytes for that digest unchanged by the
second write — but not because the store skips existing files: `os.WriteFile`
is called unconditionally and always installs the (byte-identical) object
bytes at the path, rewriting whatever was there. -/
theorem store_double_write_same_digest_same_bytes
    (sh compress : List Nat → List Nat) (b : List Nat) (st : StoreM) :
    (HashBlobObject sh compress b true ((HashBlobObject sh compress b true st).2)).1
      = (HashBlobObject sh compress b true st).1
    ∧ (HashBlobObject sh compress b true ((HashBlobObject sh compress b true st).2)).2
      = (HashBlobObject sh compress b true st).2
    ∧ ∀ (st2 : StoreM) (blob : BlobObjectM),
        (BlobObjectM.writeToFile compress blob st2) (writerObjectPath blob.Sha)
          = some (compress (serializeDecompressedBlob blob)) := by
  refine ⟨rfl, ?_, fun st2 blob => writeFileM_self _ _ _⟩
  funext q
  simp only [HashBlobObject, if_pos, writeFileM]
  split <;> rfl

/-- C6 counterexample: the claim says an entry that is neither directory,
regular file, executable, nor symlink makes the build fail with the
UnsupportedFileType error.  A FIFO (named-pipe bit set, permissions `0644`)
is not a directory, not a symlink, and not regular, yet the plumbing
package's `fileInfoToFileType` — the classifier `NewTreeObjectFromFilePath`
uses — returns the regular-file mode `"100644"` for it; the function is
total and has no error outcome at all. -/
theorem fifo_classified_as_regular :
    fileInfoToFileType fifoInfo = regularMode
    ∧ fifoInfo.isDirF = false ∧ fifoInfo.isSymlinkF = false
    ∧ fifoInfo.isRegular = false := by
  decide

/-- C6 amended: the plumbing classifier `fileInfoToFileType` totally
classifies every mode as one of the four file types (directory, symlink,
executable when any `0111` bit is set, else regular) and never fails, so
devices, FIFOs and sockets are recorded as executable or regular; only the
separate `WriteTree` switch in cmd/mygit/main.go rejects an entry, and it
does so exactly when the entry is neither a directory, nor a symlink, nor
regular. -/
theorem classification_total_only_writeTree_rejects (m : FileMode) :
    (fileInfoToFileType m = dirMode ∨ fileInfoToFileType m = symlinkMode ∨
      fileInfoToFileType m = executableMode ∨ fileInfoToFileType m = regularMode)
    ∧ (writeTreeClassify m = none ↔
        m.isDirF = false ∧ m.isSymlinkF = false ∧ m.isRegular = false) := by
  constructor
  · unfold fileInfoToFileType
    split_ifs <;> simp
  · unfold writeTreeClassify
    split_ifs with h1 h2 h3 h4 <;> simp_all

theorem writer_reader_path_iff (s0 : Nat) (rest : List Nat) :
    writerObjectPath (s0 :: rest) = readerObjectPath (s0 :: rest) ↔ 16 ≤ s0 := by
  have hr : readerObjectPath (s0 :: rest)
      = ([hexDigitByte (s0 / 16), hexDigitByte (s0 % 16)], hexBytes rest) := by
    simp [readerObjectPath, hexBytes, hexByte]
  have hw : writerObjectPath (s0 :: rest) = (intHexByte s0, hexBytes rest) := by
    simp [writerObjectPath]
  rw [hr, hw]
  by_cases h : s0 < 16
  · constructor
    · intro hcontra
      have hlen := congrArg (fun p => p.1.length) hcontra
      simp [intHexByte, h] at hlen
    · intro h16
      exact absurd h16 (by omega)
  · constructor
    · intro _
      omega
    · intro _
      simp [intHexByte, h]

/-- C7 counterexample: the claim says that in any store state in which a
tree was successfully persisted, every child digest referenced by its
entries resolves to a stored object.  Persisting the concrete tree `exTree`
— whose child blob digest `shaA` starts with the byte `0x01` — stores the
child at the writer's path (fanout directory `"1"`, one character, because
the writer formats `Sha[0]` with an unpadded `%x`), but the path every
reader derives from the digest string (`hash[:2]/hash[2:]`, directory
`"01"`) holds nothing: the persisted child does not resolve. -/
theorem treePersist_child_not_at_reader_path :
    (((ObjNode.treeN exTree exChildren).writeToFile id emptyStore)
        (writerObjectPath exEntry.Sha)).isSome = true
    ∧ ((ObjNode.treeN exTree exChildren).writeToFile id emptyStore)
        (readerObjectPath exEntry.Sha) = none := by
  constructor
  · simp [ObjNode.writeToFile, ObjList.writeAll, BlobObjectM.writeToFile,
      writeFileM, writerObjectPath, exTree, exChildren, exEntry, exBlob,
      shaA, shaB, intHexByte, hexBytes, hexByte, hexDigitByte]
  · simp only [ObjNode.writeToFile, ObjList.writeAll, BlobObjectM.writeToFile,
      writeFileM, emptyStore]
    have h1 : readerObjectPath exEntry.Sha ≠ writerObjectPath exTree.Sha := by
      decide
    have h2 : readerObjectPath exEntry.Sha ≠ writerObjectPath exBlob.Sha := by
      decide
    simp [h1, h2]

/-- C7 amended: `TreeObject.WriteToFile` persists every child object —
recursively, every subtree and every blob beneath it — before writing the
tree's own bytes (the final `writeFileM` in the definition), and after a
persist every digest in the graph, in particular every child digest
referenced by the tree's entries, has a stored object at the writer's
digest-derived path; but the writer's path coincides with the path readers
derive from the digest string exactly when the digest's first byte is at
least `0x10`, so only such digests are resolvable by a reader. -/
theorem treeWriteToFile_persists_at_writer_paths (compress : List Nat → List Nat)
    (t : TreeObjectM) (cs : ObjList) (st : StoreM)
    (hwf : ObjNode.wfB (.treeN t cs) = true) :
    ((∀ sha ∈ ObjNode.allShas (.treeN t cs),
      (((ObjNode.treeN t cs).writeToFile compress st) (writerObjectPath sha)).isSome)
    ∧ ∀ e ∈ t.Entries,
      (((ObjNode.treeN t cs).writeToFile compress st) (writerObjectPath e.Sha)).isSome)
    ∧ ∀ (s0 : Nat) (rest : List Nat),
        writerObjectPath (s0 :: rest) = readerObjectPath (s0 :: rest) ↔ 16 ≤ s0 := by
  refine ⟨⟨fun sha h => ObjNode.writeToFile_allShas compress _ st sha h, ?_⟩,
    writer_reader_path_iff⟩
  intro e he
  have hem : entriesMatch t.Entries cs = true := by
    simp only [ObjNode.wfB, Bool.and_eq_true] at hwf
    exact hwf.1
  obtain ⟨c, hc, hsha⟩ := entriesMatch_exists hem he
  have hmem : e.Sha ∈ ObjNode.allShas (.treeN t cs) := by
    simp only [ObjNode.allShas, List.mem_cons]
    exact Or.inr (hsha ▸ sha_mem_allShas_of_mem_toList hc)
  exact ObjNode.writeToFile_allShas compress _ st e.Sha hmem

/-- C7 witness: persisting the concrete one-entry tree `exTree` (child blob
`exBlob`) into the empty store leaves an object stored at the entry's
writer-side digest path. -/
theorem treeWriteToFile_persists_at_writer_paths_witness :
    (((ObjNode.treeN exTree exChildren).writeToFile id emptyStore)
      (writerObjectPath exEntry.Sha)).isSome :=
  ((treeWriteToFile_persists_at_writer_paths id exTree exChildren emptyStore
    (by simp [ObjNode.wfB, ObjList.wfB, entriesMatch, exTree, exChildren,
      exEntry, exBlob, ObjNode.sha])).1).2
    exEntry (by simp [exTree])

/-- C8: on any stored object stream — kind token `k`, size token `s`
(neither containing a space or NUL byte), then the NUL and the payload —
`GetGitObjectMetadata` returns the kind and the declared size parsed from
the header, and fails with `ErrInvalidGitObject` exactly when the kind is
neither `blob` nor `tree` or the size token does not parse to a
non-negative integer; the payload bytes after the header do not appear in
the result at all. -/
theorem getGitObjectMetadata_header_spec (k s payload : List Nat)
    (hk0 : (0 : Nat) ∉ k) (hk32 : (32 : Nat) ∉ k)
    (hs0 : (0 : Nat) ∉ s) (hs32 : (32 : Nat) ∉ s) :
    getGitObjectMetadata (k ++ [32] ++ s ++ [0] ++ payload) =
      if k ≠ treeKind ∧ k ≠ blobKind then .errInvalidGitObject
      else
        match goAtoi s with
        | none => .errInvalidGitObject
        | some size =>
          if size < 0 then .errInvalidGitObject
          else .ok { Header := k, Size := size } := by
  have hmem : (0 : Nat) ∉ k ++ 32 :: s := by
    simp only [List.mem_append, List.mem_cons, not_or]
    exact ⟨hk0, by omega, hs0⟩
  have hshape : k ++ [32] ++ s ++ [0] ++ payload = (k ++ 32 :: s) ++ 0 :: payload := by
    simp
  rw [hshape]
  simp only [getGitObjectMetadata, goCutByte_append hmem, goSplitByte_two hk32 hs32]

/-- C8 witness: a blob header with declared size 5 over a 3-byte payload —
the metadata reader still reports kind `blob` and size 5, independent of
the malformed payload. -/
theorem getGitObjectMetadata_header_spec_witness :
    getGitObjectMetadata (blobKind ++ [32] ++ strBytes "5" ++ [0] ++ [1, 2, 3])
      = .ok { Header := blobKind, Size := 5 } := by
  rw [getGitObjectMetadata_header_spec blobKind (strBytes "5") [1, 2, 3]
    (by decide) (by decide) (by decide) (by decide)]
  decide

/-- C9: tree encoding produces exactly the concatenation, per entry in
order, of the mode string, a space, the name, a NUL and the entry's raw
child-digest bytes (20 bytes each under the stated hypothesis), wrapped as
`"tree " ++ decimal(payload length) ++ NUL ++ payload`; the mode strings of
the plumbing package are `"40000"`, `"100644"`, `"100755"` and `"120000"`. -/
theorem serializeTree_layout (t : TreeObjectM) (hh : t.Header = treeKind)
    (hsha : ∀ e ∈ t.Entries, e.Sha.length = 20) :
    serializeTree t
      = strBytes "tree " ++ decimalBytes (treePayload t.Entries).length ++ [0]
          ++ (t.Entries.map (fun e => e.Mode ++ [32] ++ e.Name ++ [0] ++ e.Sha)).flatten
    ∧ dirMode = strBytes "40000" ∧ regularMode = strBytes "100644"
    ∧ executableMode = strBytes "100755" ∧ symlinkMode = strBytes "120000" := by
  refine ⟨?_, rfl, rfl, rfl, rfl⟩
  have hts : strBytes "tree " = treeKind ++ [32] := by decide
  have hmap : t.Entries.map serializeTreeEntry
      = t.Entries.map (fun e => e.Mode ++ 32 :: (e.Name ++ 0 :: e.Sha)) := by
    refine List.map_congr_left fun e he => ?_
    simp [serializeTreeEntry]
  rw [serializeTree, hh, hts]
  simp only [treePayload, List.append_assoc, List.cons_append, List.nil_append]
  rw [hmap]

/-- C9 witness: the layout law at the concrete one-entry tree `exTree`,
whose entry carries a 20-byte digest. -/
theorem serializeTree_layout_witness :
    serializeTree exTree
      = strBytes "tree " ++ decimalBytes (treePayload exTree.Entries).length ++ [0]
          ++ (exTree.Entries.map (fun e => e.Mode ++ [32] ++ e.Name ++ [0] ++ e.Sha)).flatten :=
  (serializeTree_layout exTree (by decide) (by decide)).1

/-- C10: encoding the tree with zero entries produces `"tree 0" ++ NUL`
with an empty payload, but decoding those same bytes fails with
`ErrInvalidTreeObject` (the entry loop is entered even for an empty payload
and its first `bytes.Cut` fails), so the tree encode-then-decode round-trip
fails for the empty entry list. -/
theorem empty_tree_roundtrip_fails :
    serializeTree { Header := treeKind, Entries := [], Size := 0, Sha := [] }
      = strBytes "tree 0" ++ [0]
    ∧ deserializeDecompressedTreeObject id
        (serializeTree { Header := treeKind, Entries := [], Size := 0, Sha := [] })
      = .errInvalidTreeObject := by
  constructor
  · decide
  · have h : serializeTree { Header := treeKind, Entries := [], Size := 0, Sha := ([] : List Nat) }
        = strBytes "tree 0" ++ [0] := by decide
    rw [h]
    simp [deserializeDecompressedTreeObject, goSplitByte, goCutByte, goAtoi,
      parseDecimal, parseDigitsAcc, parseEntries, strBytes, treeKind]

end GoGit
